import Mathlib

/-!
Verification of the `foundation-models-c` bridge sources.

The repository consists of the public C header
`Sources/FoundationModelsCBindings/include/FoundationModels.h` (declarations
of the bridge interface) and the example program
`Sources/fm-c-example/main.c`.  The example program's `responseCallback` and
`main` are embedded below as executable Lean functions over explicit state;
declared-but-not-implemented engine-side operations are modelled from the
specification where a claim needs them, and each such definition is marked
`Modelled from the spec:` in its doc comment.
-/

/-- The receiver state of the example program (struct `GenerationContext` in
`Sources/fm-c-example/main.c`): a cursor `lastLength` holding the previously
observed content length, and the busy-wait flag `isResponding`. -/
structure GenerationContext where
  lastLength : Nat
  isResponding : Bool
deriving DecidableEq

/-- The text emitted by the error branch of `responseCallback`.  The C format
string is written `"Failed to respond (error: \(status))"` (a Swift-style
interpolation); `\(` is not a C escape sequence, so the compiled literal
contains a plain `(` and the string holds no `%` conversion specifier: the
emitted text is this fixed string, independent of `status`. -/
def errorOutput : List Char := ("Failed to respond (error: (status))").data

/-- The end-of-stream marker printed by the null-content branch of
`responseCallback`. -/
def endOfStreamOutput : List Char := ("\n✅\n").data

/-- Observable effect of one invocation of the example's `responseCallback`:
the updated `GenerationContext`, the characters written to stdout, and
whether (and from which index) the invocation read the `content` buffer. -/
structure CallbackResult where
  context : GenerationContext
  printed : List Char
  readsContent : Bool
  readStart : Nat
deriving DecidableEq

/-- Shallow embedding of `responseCallback` from
`Sources/fm-c-example/main.c`.  A C string is embedded as `List Char`
(`none` embeds a null `content` pointer).  The nonzero-status branch prints
the fixed error literal and clears `isResponding`; the non-null branch
prints `&content[context->lastLength]` — the suffix of the snapshot from the
cursor — and stores the reported `length` into the cursor; the null branch
prints the end-of-stream marker and clears `isResponding`.  `readsContent`
and `readStart` record the access `&content[context->lastLength]` performed
by the non-null branch. -/
def responseCallback (status : Int) (content : Option (List Char))
    (length : Nat) (context : GenerationContext) : CallbackResult :=
  if status ≠ 0 then
    { context := { context with isResponding := false }
      printed := errorOutput
      readsContent := false
      readStart := 0 }
  else
    match content with
    | some s =>
        { context := { context with lastLength := length }
          printed := s.drop context.lastLength
          readsContent := true
          readStart := context.lastLength }
    | none =>
        { context := { context with isResponding := false }
          printed := endOfStreamOutput
          readsContent := false
          readStart := 0 }

/-- One delivered callback invocation of the streaming protocol, as received
by `responseCallback`: the `status` argument, the (possibly null) `content`
argument, and the reported `length` argument. -/
structure StreamInvocation where
  status : Int
  content : Option (List Char)
  length : Nat
deriving DecidableEq

/-- Run `responseCallback` over a sequence of invocations, threading the
`GenerationContext` through, and pair every invocation with its observable
result. -/
def runCallbacks (context : GenerationContext) :
    List StreamInvocation → List (StreamInvocation × CallbackResult)
  | [] => []
  | e :: rest =>
    let r := responseCallback e.status e.content e.length context
    (e, r) :: runCallbacks r.context rest

/-- The `GenerationContext` after `responseCallback` has processed a
sequence of invocations. -/
def finalContext (context : GenerationContext) :
    List StreamInvocation → GenerationContext
  | [] => context
  | e :: rest =>
    finalContext (responseCallback e.status e.content e.length context).context rest

/-- The context `main` builds before iterating the stream
(`context.lastLength = 0; context.isResponding = true;` in
`Sources/fm-c-example/main.c`). -/
def initialContext : GenerationContext :=
  { lastLength := 0, isResponding := true }

/-- An invocation is terminal when its status is nonzero or its content
pointer is null. -/
def isTerminalInvocation (e : StreamInvocation) : Bool :=
  decide (e.status ≠ 0) || decide (e.content = none)

/-- The non-null content snapshots of a sequence of invocations. -/
def nonNullSnapshots (events : List StreamInvocation) : List (List Char) :=
  events.filterMap (fun e => e.content)

/-- The reported lengths of the non-null invocations of a sequence. -/
def nonNullLengths (events : List StreamInvocation) : List Nat :=
  events.filterMap (fun e => e.content.map (fun _ => e.length))

/-- The concatenation of everything the non-null invocations of a trace
printed (the content output of the stream; the null end-of-stream invocation
prints only the fixed end-of-stream marker). -/
def printedContent : List (StreamInvocation × CallbackResult) → List Char
  | [] => []
  | (e, r) :: rest =>
    (match e.content with
     | some _ => r.printed
     | none => []) ++ printedContent rest

/-- Decidable encoding of the snapshot-chain hypothesis: each list in the
sequence is a prefix of the next. -/
def chainedPrefixes : List (List Char) → Bool
  | [] => true
  | [_] => true
  | a :: b :: rest => a.isPrefixOf b && chainedPrefixes (b :: rest)

/-- Decidable encoding of the non-decreasing-lengths hypothesis. -/
def sortedLengths : List Nat → Bool
  | [] => true
  | [_] => true
  | a :: b :: rest => decide (a ≤ b) && sortedLengths (b :: rest)

/-- C10: when the example's `responseCallback` is invoked with a nonzero
status it prints the fixed literal `errorOutput` — which contains no digit,
so the numeric status value never appears in the output — sets
`isResponding` to `false`, leaves `lastLength` unchanged, and performs no
read of `content`. -/
theorem responseCallback_error_branch_fixed_literal (status : Int)
    (h : status ≠ 0) (content : Option (List Char)) (length : Nat)
    (context : GenerationContext) :
    (responseCallback status content length context).printed = errorOutput ∧
    (∀ c ∈ errorOutput, ¬ c.isDigit) ∧
    (responseCallback status content length context).context.lastLength
      = context.lastLength ∧
    (responseCallback status content length context).context.isResponding
      = false ∧
    (responseCallback status content length context).readsContent = false := by
  refine ⟨by simp [responseCallback, if_pos h], by decide,
    by simp [responseCallback, if_pos h], by simp [responseCallback, if_pos h],
    by simp [responseCallback, if_pos h]⟩

/-- Witness for `responseCallback_error_branch_fixed_literal` at
status `-1`, content `"Hi"`, length `2`, the initial context. -/
theorem responseCallback_error_branch_fixed_literal_spot :
    (responseCallback (-1) (some (("Hi").data)) 2 initialContext).printed
      = errorOutput ∧
    (responseCallback (-1) (some (("Hi").data)) 2 initialContext).context.lastLength
      = initialContext.lastLength ∧
    (responseCallback (-1) (some (("Hi").data)) 2 initialContext).context.isResponding
      = false := by
  have h := responseCallback_error_branch_fixed_literal (-1) (by decide)
    (some (("Hi").data)) 2 initialContext
  exact ⟨h.1, h.2.2.1, h.2.2.2.1⟩

/-- A terminal invocation (nonzero status or null content) leaves
`isResponding` cleared. -/
theorem responseCallback_terminal_clears (e : StreamInvocation)
    (ctx : GenerationContext) (h : isTerminalInvocation e = true) :
    (responseCallback e.status e.content e.length ctx).context.isResponding
      = false := by
  have h' : e.status ≠ 0 ∨ e.content = none := by
    simpa [isTerminalInvocation] using h
  rcases h' with h' | h'
  · simp [responseCallback, if_pos h']
  · by_cases hs : e.status ≠ 0
    · simp [responseCallback, if_pos hs]
    · simp [responseCallback, if_neg hs, h']

/-- A non-terminal invocation (status `0`, non-null content) leaves
`isResponding` unchanged. -/
theorem responseCallback_nonterminal_keeps (e : StreamInvocation)
    (ctx : GenerationContext) (h : isTerminalInvocation e = false) :
    (responseCallback e.status e.content e.length ctx).context.isResponding
      = ctx.isResponding := by
  have h' : e.status = 0 ∧ e.content ≠ none := by
    simpa [isTerminalInvocation, not_or] using h
  obtain ⟨s, hs⟩ := Option.ne_none_iff_exists'.mp h'.2
  simp [responseCallback, h'.1, hs]

/-- Processing a sequence whose last invocation is terminal ends with
`isResponding = false`, from any starting context. -/
theorem finalContext_of_terminal_last (events : List StreamInvocation) :
    ∀ (ctx : GenerationContext) (e : StreamInvocation),
      events.getLast? = some e → isTerminalInvocation e = true →
      (finalContext ctx events).isResponding = false := by
  induction events with
  | nil => intro ctx e h; cases h
  | cons a rest ih =>
    intro ctx e hlast hterm
    cases rest with
    | nil =>
      have ha : a = e := by simpa [List.getLast?] using hlast
      subst ha
      simpa [finalContext] using responseCallback_terminal_clears a ctx hterm
    | cons b bs =>
      have hlast' : (b :: bs).getLast? = some e := by
        simpa [List.getLast?_cons_cons] using hlast
      simpa [finalContext] using
        ih (responseCallback a.status a.content a.length ctx).context e hlast' hterm

/-- C4: the example's busy-wait loop `while (context.isResponding);`
terminates under the stated callback protocol.  `main` sets `isResponding`
to `true` before iterating (`initialContext`); `responseCallback` never
turns the flag back on; a terminal invocation (null content or nonzero
status) — and only a terminal invocation — clears it; hence once the
protocol delivers its single terminal invocation last, the context after
the whole delivery has `isResponding = false`, so the loop's condition
eventually stays false and the loop exits. -/
theorem busy_wait_terminates :
    initialContext.isResponding = true ∧
    (∀ (status : Int) (content : Option (List Char)) (length : Nat)
        (ctx : GenerationContext),
      (responseCallback status content length ctx).context.isResponding = true →
        ctx.isResponding = true) ∧
    (∀ (e : StreamInvocation) (ctx : GenerationContext),
      isTerminalInvocation e = true →
        (responseCallback e.status e.content e.length ctx).context.isResponding
          = false) ∧
    (∀ (e : StreamInvocation) (ctx : GenerationContext),
      isTerminalInvocation e = false →
        (responseCallback e.status e.content e.length ctx).context.isResponding
          = ctx.isResponding) ∧
    (∀ (events : List StreamInvocation) (e : StreamInvocation),
      events.getLast? = some e → isTerminalInvocation e = true →
        (finalContext initialContext events).isResponding = false) := by
  refine ⟨rfl, ?_, ?_, ?_, ?_⟩
  · intro status content length ctx h
    by_cases hs : status ≠ 0
    · simp [responseCallback, if_pos hs] at h
    · cases content with
      | some s => simpa [responseCallback, if_neg hs] using h
      | none => simp [responseCallback, if_neg hs] at h
  · exact fun e ctx h => responseCallback_terminal_clears e ctx h
  · exact fun e ctx h => responseCallback_nonterminal_keeps e ctx h
  · exact fun events e h1 h2 => finalContext_of_terminal_last events initialContext e h1 h2

/-- Witness for `busy_wait_terminates`: a two-invocation stream — one
snapshot, then the terminal null-content invocation — ends with the
busy-wait flag cleared. -/
theorem busy_wait_terminates_spot :
    (finalContext initialContext
      [⟨0, some (("Hi").data), 2⟩, ⟨0, none, 0⟩]).isResponding = false := by
  exact busy_wait_terminates.2.2.2.2
    [⟨0, some (("Hi").data), 2⟩, ⟨0, none, 0⟩] ⟨0, none, 0⟩ (by decide) (by decide)

/-- Prepending the empty list to a prefix chain changes nothing. -/
theorem chainedPrefixes_nil_cons (L : List (List Char)) :
    chainedPrefixes ([] :: L) = chainedPrefixes L := by
  cases L with
  | nil => rfl
  | cons b rest => simp [chainedPrefixes]

/-- Generalized suffix-printing invariant: if the cursor holds the length of
an already-printed prefix `p` of the first snapshot, then `p` followed by
everything the remaining non-null invocations print is the last snapshot. -/
theorem printedContent_extends (events : List StreamInvocation) :
    ∀ (ctx : GenerationContext) (p : List Char),
      ctx.lastLength = p.length →
      (∀ e ∈ events, e.status = 0) →
      (∀ e ∈ events, ∀ s, e.content = some s → e.length = s.length) →
      chainedPrefixes (p :: nonNullSnapshots events) = true →
      p ++ printedContent (runCallbacks ctx events)
        = (nonNullSnapshots events).getLastD p := by
  induction events with
  | nil =>
    intro ctx p _ _ _ _
    simp [runCallbacks, printedContent, nonNullSnapshots]
  | cons e rest ih =>
    intro ctx p hll hstatus hlen hchain
    have he0 : e.status = 0 := hstatus e (List.mem_cons_self e rest)
    have hstatus' : ∀ x ∈ rest, x.status = 0 :=
      fun x hx => hstatus x (List.mem_cons_of_mem e hx)
    have hlen' : ∀ x ∈ rest, ∀ s, x.content = some s → x.length = s.length :=
      fun x hx => hlen x (List.mem_cons_of_mem e hx)
    cases hc : e.content with
    | none =>
      have hsnap : nonNullSnapshots (e :: rest) = nonNullSnapshots rest := by
        simp [nonNullSnapshots, hc]
      rw [hsnap] at hchain ⊢
      have hstep :
          (responseCallback e.status e.content e.length ctx).context.lastLength
            = p.length := by
        simp [responseCallback, he0, hc, hll]
      calc p ++ printedContent (runCallbacks ctx (e :: rest))
          = p ++ printedContent
              (runCallbacks
                (responseCallback e.status e.content e.length ctx).context rest) := by
            simp [runCallbacks, printedContent, hc]
        _ = (nonNullSnapshots rest).getLastD p :=
            ih (responseCallback e.status e.content e.length ctx).context p hstep
              hstatus' hlen' hchain
    | some s =>
      have hsnap : nonNullSnapshots (e :: rest) = s :: nonNullSnapshots rest := by
        simp [nonNullSnapshots, hc]
      rw [hsnap] at hchain ⊢
      have hps : p.isPrefixOf s = true ∧
          chainedPrefixes (s :: nonNullSnapshots rest) = true := by
        simpa [chainedPrefixes] using hchain
      have hpre : p ++ s.drop p.length = s :=
        List.prefix_iff_eq_append.mp (by simpa using hps.1)
      have hslen : e.length = s.length := hlen e (List.mem_cons_self e rest) s hc
      have hstep :
          (responseCallback e.status e.content e.length ctx).context.lastLength
            = s.length := by
        simp [responseCallback, he0, hc, hslen]
      calc p ++ printedContent (runCallbacks ctx (e :: rest))
          = p ++ (s.drop p.length ++ printedContent
              (runCallbacks
                (responseCallback e.status e.content e.length ctx).context rest)) := by
            simp [runCallbacks, printedContent, responseCallback, he0, hc, hll]
        _ = (p ++ s.drop p.length) ++ printedContent
              (runCallbacks
                (responseCallback e.status e.content e.length ctx).context rest) := by
            rw [List.append_assoc]
        _ = s ++ printedContent
              (runCallbacks
                (responseCallback e.status e.content e.length ctx).context rest) := by
            rw [hpre]
        _ = (nonNullSnapshots rest).getLastD s :=
            ih (responseCallback e.status e.content e.length ctx).context s hstep
              hstatus' hlen' hps.2
        _ = (s :: nonNullSnapshots rest).getLastD p := by
            rw [List.getLastD_cons]

/-- Per-invocation shape of a status-0, non-null delivery: the callback
prints the suffix of the snapshot starting at the previously observed
length (its recorded `readStart`) and stores the reported length into the
cursor. -/
theorem runCallbacks_nonnull_shape (events : List StreamInvocation) :
    ∀ ctx : GenerationContext, ∀ pr ∈ runCallbacks ctx events,
      ∀ s, pr.1.content = some s → pr.1.status = 0 →
        pr.2.printed = s.drop pr.2.readStart ∧
        pr.2.context.lastLength = pr.1.length := by
  induction events with
  | nil => intro ctx pr h; cases h
  | cons e rest ih =>
    intro ctx pr hmem s hc h0
    rw [runCallbacks] at hmem
    rcases List.mem_cons.mp hmem with hpr | hpr
    · subst hpr
      simp only at hc h0 ⊢
      simp [responseCallback, h0, hc]
    · exact ih (responseCallback e.status e.content e.length ctx).context pr hpr s hc h0

/-- C1: for a stream delivered as status-0 invocations whose non-null
snapshots form a prefix chain and whose reported lengths are the snapshot
lengths, `responseCallback` started with `lastLength = 0` prints exactly
the final snapshot: every non-null invocation prints the suffix of its
snapshot starting at the previously observed length (`readStart`) and sets
the cursor to the new length, and the concatenation of the content printed
across the invocations equals the last non-null snapshot. -/
theorem responseCallback_prints_final_snapshot (events : List StreamInvocation)
    (ctx : GenerationContext) (hstart : ctx.lastLength = 0)
    (hstatus : ∀ e ∈ events, e.status = 0)
    (hlen : ∀ e ∈ events, ∀ s, e.content = some s → e.length = s.length)
    (hchain : chainedPrefixes (nonNullSnapshots events) = true) :
    printedContent (runCallbacks ctx events)
      = (nonNullSnapshots events).getLastD [] ∧
    (∀ pr ∈ runCallbacks ctx events, ∀ s, pr.1.content = some s →
      pr.1.status = 0 →
      pr.2.printed = s.drop pr.2.readStart ∧
      pr.2.context.lastLength = pr.1.length) := by
  constructor
  · have h := printedContent_extends events ctx [] (by simpa using hstart)
      hstatus hlen (by rwa [chainedPrefixes_nil_cons])
    simpa using h
  · exact runCallbacks_nonnull_shape events ctx

/-- Witness for `responseCallback_prints_final_snapshot`: the stream
`"Hi"`, `"Hi ho"`, end-of-stream prints exactly `"Hi ho"`. -/
theorem responseCallback_prints_final_snapshot_spot :
    printedContent (runCallbacks initialContext
        [⟨0, some (("Hi").data), 2⟩, ⟨0, some (("Hi ho").data), 5⟩, ⟨0, none, 0⟩])
      = (nonNullSnapshots
          [⟨0, some (("Hi").data), 2⟩, ⟨0, some (("Hi ho").data), 5⟩,
            ⟨0, none, 0⟩]).getLastD [] := by
  exact (responseCallback_prints_final_snapshot
    [⟨0, some (("Hi").data), 2⟩, ⟨0, some (("Hi ho").data), 5⟩, ⟨0, none, 0⟩]
    initialContext rfl (by decide) (by decide) (by decide)).1

/-- The head of a sorted length list bounds every later element. -/
theorem sortedLengths_head_le (L : List Nat) :
    ∀ a : Nat, sortedLengths (a :: L) = true → ∀ l ∈ L, a ≤ l := by
  induction L with
  | nil => intro a _ l hl; cases hl
  | cons b rest ih =>
    intro a h l hl
    have hab : a ≤ b ∧ sortedLengths (b :: rest) = true := by
      simpa [sortedLengths] using h
    rcases List.mem_cons.mp hl with hlb | hlr
    · exact hlb ▸ hab.1
    · exact le_trans hab.1 (ih b hab.2 l hlr)

/-- Sortedness is preserved by dropping the head. -/
theorem sortedLengths_tail (a : Nat) (L : List Nat)
    (h : sortedLengths (a :: L) = true) : sortedLengths L = true := by
  cases L with
  | nil => rfl
  | cons b rest => exact (by simpa [sortedLengths] using h : _ ∧ _).2

/-- Generalized in-bounds invariant: if the cursor is below every upcoming
reported non-null length, every content read performed by the run starts
within the snapshot it reads. -/
theorem runCallbacks_reads_in_bounds (events : List StreamInvocation) :
    ∀ ctx : GenerationContext,
      (∀ l ∈ nonNullLengths events, ctx.lastLength ≤ l) →
      sortedLengths (nonNullLengths events) = true →
      (∀ e ∈ events, ∀ s, e.content = some s → e.length = s.length) →
      ∀ pr ∈ runCallbacks ctx events, pr.2.readsContent = true →
        ∀ s, pr.1.content = some s → pr.2.readStart ≤ s.length := by
  induction events with
  | nil => intro ctx _ _ _ pr h; cases h
  | cons e rest ih =>
    intro ctx hub hsort hlen pr hmem hreads s hc
    have hlen' : ∀ x ∈ rest, ∀ s, x.content = some s → x.length = s.length :=
      fun x hx => hlen x (List.mem_cons_of_mem e hx)
    rw [runCallbacks] at hmem
    cases hc0 : e.content with
    | none =>
      have hlens : nonNullLengths (e :: rest) = nonNullLengths rest := by
        simp [nonNullLengths, hc0]
      rcases List.mem_cons.mp hmem with hpr | hpr
      · subst hpr
        rw [hc0] at hc
        exact Option.noConfusion hc
      · have hkeep :
            (responseCallback e.status e.content e.length ctx).context.lastLength
              = ctx.lastLength := by
          by_cases hs : e.status ≠ 0
          · simp [responseCallback, if_pos hs]
          · simp [responseCallback, if_neg hs, hc0]
        refine ih (responseCallback e.status e.content e.length ctx).context
          ?_ ?_ hlen' pr hpr hreads s hc
        · intro l hl
          rw [hkeep]
          exact hub l (by rwa [hlens])
        · rwa [hlens] at hsort
    | some s0 =>
      have hlens : nonNullLengths (e :: rest) = e.length :: nonNullLengths rest := by
        simp [nonNullLengths, hc0]
      have hube : ctx.lastLength ≤ e.length := by
        refine hub e.length ?_
        rw [hlens]; exact List.mem_cons_self _ _
      have hrest_ub : ∀ l ∈ nonNullLengths rest, e.length ≤ l := by
        have := sortedLengths_head_le (nonNullLengths rest) e.length
          (by rwa [hlens] at hsort)
        exact this
      have hsort' : sortedLengths (nonNullLengths rest) = true :=
        sortedLengths_tail e.length (nonNullLengths rest) (by rwa [hlens] at hsort)
      by_cases hs : e.status ≠ 0
      · rcases List.mem_cons.mp hmem with hpr | hpr
        · subst hpr
          simp [responseCallback, if_pos hs] at hreads
        · have hkeep :
              (responseCallback e.status e.content e.length ctx).context.lastLength
                = ctx.lastLength := by
            simp [responseCallback, if_pos hs]
          refine ih (responseCallback e.status e.content e.length ctx).context
            ?_ hsort' hlen' pr hpr hreads s hc
          intro l hl
          rw [hkeep]
          exact le_trans hube (hrest_ub l hl)
      · rcases List.mem_cons.mp hmem with hpr | hpr
        · subst hpr
          have hss : s = s0 := by
            simp only [hc0] at hc
            exact (Option.some_inj.mp hc).symm
          subst hss
          have hlen_e : e.length = s.length :=
            hlen e (List.mem_cons_self e rest) s hc0
          have : (responseCallback e.status e.content e.length ctx).readStart
              = ctx.lastLength := by
            simp [responseCallback, if_neg hs, hc0]
          simp only
          rw [this, ← hlen_e]
          exact hube
        · have hset :
              (responseCallback e.status e.content e.length ctx).context.lastLength
                = e.length := by
            simp [responseCallback, if_neg hs, hc0]
          refine ih (responseCallback e.status e.content e.length ctx).context
            ?_ hsort' hlen' pr hpr hreads s hc
          intro l hl
          rw [hset]
          exact hrest_ub l hl

/-- C9: the example's `responseCallback` never reads through a null content
pointer — invocations with null content or nonzero status perform no access
to the content bytes — and for every invocation sequence whose reported
non-null lengths are non-decreasing and equal to the snapshots' actual
lengths, every read it performs starts within the snapshot's bounds
(`readStart` never exceeds the snapshot length). -/
theorem responseCallback_reads_safe :
    (∀ (status : Int) (content : Option (List Char)) (length : Nat)
        (ctx : GenerationContext), content = none ∨ status ≠ 0 →
      (responseCallback status content length ctx).readsContent = false) ∧
    (∀ (events : List StreamInvocation) (ctx : GenerationContext),
      ctx.lastLength = 0 →
      (∀ e ∈ events, ∀ s, e.content = some s → e.length = s.length) →
      sortedLengths (nonNullLengths events) = true →
      ∀ pr ∈ runCallbacks ctx events, pr.2.readsContent = true →
        ∀ s, pr.1.content = some s → pr.2.readStart ≤ s.length) := by
  constructor
  · intro status content length ctx h
    rcases h with h | h
    · by_cases hs : status ≠ 0
      · simp [responseCallback, if_pos hs]
      · simp [responseCallback, if_neg hs, h]
    · simp [responseCallback, if_pos h]
  · intro events ctx hstart hlen hsort pr hmem hreads s hc
    refine runCallbacks_reads_in_bounds events ctx ?_ hsort hlen pr hmem hreads s hc
    intro l _
    rw [hstart]
    exact Nat.zero_le l

/-- Witness for `responseCallback_reads_safe`: a null-content invocation
reads nothing, and the first read of a two-snapshot stream starts at
index 0, inside the snapshot. -/
theorem responseCallback_reads_safe_spot :
    (responseCallback 0 none 5 initialContext).readsContent = false ∧
    (responseCallback 0 (some (("Hi").data)) 2 initialContext).readStart
      ≤ (("Hi").data).length := by
  constructor
  · exact responseCallback_reads_safe.1 0 none 5 initialContext (Or.inl rfl)
  · exact responseCallback_reads_safe.2
      [⟨0, some (("Hi").data), 2⟩] initialContext rfl (by decide) (by decide)
      (⟨0, some (("Hi").data), 2⟩,
        responseCallback 0 (some (("Hi").data)) 2 initialContext)
      (by simp [runCallbacks]) (by decide) (("Hi").data) rfl

/-- A C `double` argument, carried as an uninterpreted 64-bit pattern: the
guide-attachment claims do not depend on its arithmetic. -/
structure CDouble where
  bits : Nat
deriving DecidableEq

/-- A validation guide attached to a schema property.  Each constructor
carries exactly the parameters of the corresponding attachment function in
`FoundationModels.h`; in particular `minItems` and `maxItems` carry no
`wrapped` flag because `FMGenerationSchemaPropertyAddMinItemsGuide` and
`FMGenerationSchemaPropertyAddMaxItemsGuide` take none. -/
inductive GenerationGuide where
  | anyOf (choices : List (List Char)) (choiceCount : Int) (wrapped : Bool)
  | count (count : Int) (wrapped : Bool)
  | maximum (maximum : CDouble) (wrapped : Bool)
  | minimum (minimum : CDouble) (wrapped : Bool)
  | minItems (minItems : Int)
  | maxItems (maxItems : Int)
  | range (minValue maxValue : CDouble) (wrapped : Bool)
  | regex (pattern : List Char) (wrapped : Bool)
deriving DecidableEq

/-- A schema property under construction (`FMGenerationSchemaPropertyRef`):
name, optional description, semantic type name, optionality flag, and the
guides attached so far. -/
structure GenerationSchemaProperty where
  name : List Char
  description : Option (List Char)
  typeName : List Char
  isOptional : Bool
  guides : List GenerationGuide
deriving DecidableEq

/-- Embeds `FMGenerationSchemaPropertyCreate` from the header: a fresh property
with no guides. -/
def FMGenerationSchemaPropertyCreate (name : List Char)
    (description : Option (List Char)) (typeName : List Char)
    (isOptional : Bool) : GenerationSchemaProperty :=
  { name := name, description := description, typeName := typeName
    isOptional := isOptional, guides := [] }

/-- Embeds `FMGenerationSchemaPropertyAddAnyOfGuide(property, anyOf, choiceCount,
wrapped)`. -/
def FMGenerationSchemaPropertyAddAnyOfGuide
    (property : GenerationSchemaProperty) (anyOf : List (List Char))
    (choiceCount : Int) (wrapped : Bool) : GenerationSchemaProperty :=
  { property with
    guides := property.guides ++ [GenerationGuide.anyOf anyOf choiceCount wrapped] }

/-- Embeds `FMGenerationSchemaPropertyAddCountGuide(property, count, wrapped)`. -/
def FMGenerationSchemaPropertyAddCountGuide
    (property : GenerationSchemaProperty) (count : Int)
    (wrapped : Bool) : GenerationSchemaProperty :=
  { property with
    guides := property.guides ++ [GenerationGuide.count count wrapped] }

/-- Embeds `FMGenerationSchemaPropertyAddMaximumGuide(property, maximum, wrapped)`. -/
def FMGenerationSchemaPropertyAddMaximumGuide
    (property : GenerationSchemaProperty) (maximum : CDouble)
    (wrapped : Bool) : GenerationSchemaProperty :=
  { property with
    guides := property.guides ++ [GenerationGuide.maximum maximum wrapped] }

/-- Embeds `FMGenerationSchemaPropertyAddMinimumGuide(property, minimum, wrapped)`. -/
def FMGenerationSchemaPropertyAddMinimumGuide
    (property : GenerationSchemaProperty) (minimum : CDouble)
    (wrapped : Bool) : GenerationSchemaProperty :=
  { property with
    guides := property.guides ++ [GenerationGuide.minimum minimum wrapped] }

/-- Embeds `FMGenerationSchemaPropertyAddMinItemsGuide(property, minItems)` — the
header declares no `wrapped` parameter for this operation. -/
def FMGenerationSchemaPropertyAddMinItemsGuide
    (property : GenerationSchemaProperty) (minItems : Int) :
    GenerationSchemaProperty :=
  { property with
    guides := property.guides ++ [GenerationGuide.minItems minItems] }

/-- Embeds `FMGenerationSchemaPropertyAddMaxItemsGuide(property, maxItems)` — the
header declares no `wrapped` parameter for this operation. -/
def FMGenerationSchemaPropertyAddMaxItemsGuide
    (property : GenerationSchemaProperty) (maxItems : Int) :
    GenerationSchemaProperty :=
  { property with
    guides := property.guides ++ [GenerationGuide.maxItems maxItems] }

/-- Embeds `FMGenerationSchemaPropertyAddRangeGuide(property, minValue, maxValue,
wrapped)`. -/
def FMGenerationSchemaPropertyAddRangeGuide
    (property : GenerationSchemaProperty) (minValue maxValue : CDouble)
    (wrapped : Bool) : GenerationSchemaProperty :=
  { property with
    guides := property.guides ++ [GenerationGuide.range minValue maxValue wrapped] }

/-- Embeds `FMGenerationSchemaPropertyAddRegex(property, pattern, wrapped)`. -/
def FMGenerationSchemaPropertyAddRegex
    (property : GenerationSchemaProperty) (pattern : List Char)
    (wrapped : Bool) : GenerationSchemaProperty :=
  { property with
    guides := property.guides ++ [GenerationGuide.regex pattern wrapped] }

/-- The closed set of validation guide kinds. -/
inductive GuideKind where
  | anyOf
  | count
  | maximum
  | minimum
  | minItems
  | maxItems
  | range
  | regex
deriving DecidableEq

/-- The kind of an attached guide. -/
def GenerationGuide.kind : GenerationGuide → GuideKind
  | GenerationGuide.anyOf _ _ _ => GuideKind.anyOf
  | GenerationGuide.count _ _ => GuideKind.count
  | GenerationGuide.maximum _ _ => GuideKind.maximum
  | GenerationGuide.minimum _ _ => GuideKind.minimum
  | GenerationGuide.minItems _ => GuideKind.minItems
  | GenerationGuide.maxItems _ => GuideKind.maxItems
  | GenerationGuide.range _ _ _ => GuideKind.range
  | GenerationGuide.regex _ _ => GuideKind.regex

/-- The wrapped flag recorded on an attached guide, when its attachment
operation takes one. -/
def GenerationGuide.wrappedFlag : GenerationGuide → Option Bool
  | GenerationGuide.anyOf _ _ w => some w
  | GenerationGuide.count _ w => some w
  | GenerationGuide.maximum _ w => some w
  | GenerationGuide.minimum _ w => some w
  | GenerationGuide.minItems _ => none
  | GenerationGuide.maxItems _ => none
  | GenerationGuide.range _ _ w => some w
  | GenerationGuide.regex _ w => some w

/-- A guide kind "accepts a wrapped flag" when some attachable guide of
that kind records one. -/
def guideKindAcceptsWrapped (k : GuideKind) : Prop :=
  ∃ g : GenerationGuide,
    GenerationGuide.kind g = k ∧ GenerationGuide.wrappedFlag g ≠ none

/-- C7 counterexample: `FMGenerationSchemaPropertyAddMinItemsGuide` attaches
a guide that records no wrapped flag — no guide of kind min-items can be
marked wrapped, so not every guide-attachment operation accepts a wrapped
flag. -/
theorem minItems_guide_has_no_wrapped_flag :
    (FMGenerationSchemaPropertyAddMinItemsGuide
        (FMGenerationSchemaPropertyCreate (("city").data) none
          (("String").data) false) 3).guides
      = [GenerationGuide.minItems 3] ∧
    GenerationGuide.wrappedFlag (GenerationGuide.minItems 3) = none ∧
    ¬ guideKindAcceptsWrapped GuideKind.minItems := by
  refine ⟨rfl, rfl, ?_⟩
  rintro ⟨g, hk, hw⟩
  cases g <;>
    simp [GenerationGuide.kind, GenerationGuide.wrappedFlag] at hk hw

/-- C7 (amended): a guide kind can be marked wrapped exactly when it is not
min-items and not max-items — the six attachment operations
`AddAnyOfGuide`, `AddCountGuide`, `AddMaximumGuide`, `AddMinimumGuide`,
`AddRangeGuide` and `AddRegex` take a wrapped flag, while
`AddMinItemsGuide` and `AddMaxItemsGuide` do not. -/
theorem guide_kind_accepts_wrapped_iff (k : GuideKind) :
    guideKindAcceptsWrapped k ↔
      (k ≠ GuideKind.minItems ∧ k ≠ GuideKind.maxItems) := by
  constructor
  · rintro ⟨g, hk, hw⟩
    cases g with
    | minItems n => exact absurd rfl hw
    | maxItems n => exact absurd rfl hw
    | anyOf c n w => subst hk; exact ⟨fun h => GuideKind.noConfusion h, fun h => GuideKind.noConfusion h⟩
    | count n w => subst hk; exact ⟨fun h => GuideKind.noConfusion h, fun h => GuideKind.noConfusion h⟩
    | maximum x w => subst hk; exact ⟨fun h => GuideKind.noConfusion h, fun h => GuideKind.noConfusion h⟩
    | minimum x w => subst hk; exact ⟨fun h => GuideKind.noConfusion h, fun h => GuideKind.noConfusion h⟩
    | range x y w => subst hk; exact ⟨fun h => GuideKind.noConfusion h, fun h => GuideKind.noConfusion h⟩
    | regex p w => subst hk; exact ⟨fun h => GuideKind.noConfusion h, fun h => GuideKind.noConfusion h⟩
  · intro h
    cases k with
    | minItems => exact absurd rfl h.1
    | maxItems => exact absurd rfl h.2
    | anyOf => exact ⟨GenerationGuide.anyOf [] 0 true, rfl, by simp [GenerationGuide.wrappedFlag]⟩
    | count => exact ⟨GenerationGuide.count 0 true, rfl, by simp [GenerationGuide.wrappedFlag]⟩
    | maximum => exact ⟨GenerationGuide.maximum ⟨0⟩ true, rfl, by simp [GenerationGuide.wrappedFlag]⟩
    | minimum => exact ⟨GenerationGuide.minimum ⟨0⟩ true, rfl, by simp [GenerationGuide.wrappedFlag]⟩
    | range => exact ⟨GenerationGuide.range ⟨0⟩ ⟨0⟩ true, rfl, by simp [GenerationGuide.wrappedFlag]⟩
    | regex => exact ⟨GenerationGuide.regex [] true, rfl, by simp [GenerationGuide.wrappedFlag]⟩

/-- One callback invocation of the streaming delivery, seen at the protocol
level: a status-0 invocation carrying a non-null snapshot and its length, a
status-0 invocation with null content (end-of-stream), or a terminal
nonzero-status invocation. -/
inductive StreamEvent where
  | content (snapshot : List Char) (length : Nat)
  | endOfStream
  | failure (status : Int)
deriving DecidableEq

/-- Modelled from the spec: the engine-side delivery driven by
`FMLanguageModelSessionResponseStreamIterate` is declared in
`FoundationModels.h` but not implemented under `src/`.  Per the spec, each
delivery is a snapshot of the full response so far (not a delta): the engine
reports prefixes of the final response text at strictly increasing cut
points, then exactly one null-content end-of-stream invocation — unless a
nonzero-status failure preempts the stream, in which case the failure is the
terminal invocation and no end-of-stream marker is sent. -/
def streamDeliveryTrace (finalText : List Char) (cuts : List Nat)
    (failureStatus : Option Int) : List StreamEvent :=
  cuts.map (fun n => StreamEvent.content (finalText.take n) (finalText.take n).length)
    ++ match failureStatus with
       | none => [StreamEvent.endOfStream]
       | some e => [StreamEvent.failure e]

/-- The non-null snapshots of a protocol trace, in delivery order. -/
def traceSnapshots : List StreamEvent → List (List Char)
  | [] => []
  | StreamEvent.content s _ :: rest => s :: traceSnapshots rest
  | StreamEvent.endOfStream :: rest => traceSnapshots rest
  | StreamEvent.failure _ :: rest => traceSnapshots rest

/-- The number of null-content (end-of-stream) invocations of a trace. -/
def countEndOfStream : List StreamEvent → Nat
  | [] => 0
  | StreamEvent.endOfStream :: rest => countEndOfStream rest + 1
  | StreamEvent.content _ _ :: rest => countEndOfStream rest
  | StreamEvent.failure _ :: rest => countEndOfStream rest

/-- Decidable encoding of a strictly increasing cut sequence. -/
def strictlyIncreasing : List Nat → Bool
  | [] => true
  | [_] => true
  | a :: b :: rest => decide (a < b) && strictlyIncreasing (b :: rest)

/-- The snapshots of a delivery trace are exactly the prefixes taken at the
cut points. -/
theorem traceSnapshots_streamDeliveryTrace (finalText : List Char)
    (failureStatus : Option Int) :
    ∀ cuts : List Nat,
      traceSnapshots (streamDeliveryTrace finalText cuts failureStatus)
        = cuts.map (fun n => finalText.take n) := by
  intro cuts
  induction cuts with
  | nil =>
    cases failureStatus <;> simp [streamDeliveryTrace, traceSnapshots]
  | cons n rest ih =>
    simpa [streamDeliveryTrace, traceSnapshots] using ih

/-- The end-of-stream count of a delivery trace: one on success, zero when
a failure preempts the stream. -/
theorem countEndOfStream_streamDeliveryTrace (finalText : List Char)
    (failureStatus : Option Int) :
    ∀ cuts : List Nat,
      countEndOfStream (streamDeliveryTrace finalText cuts failureStatus)
        = match failureStatus with
          | none => 1
          | some _ => 0 := by
  intro cuts
  induction cuts with
  | nil =>
    cases failureStatus <;> simp [streamDeliveryTrace, countEndOfStream]
  | cons n rest ih =>
    simpa [streamDeliveryTrace, countEndOfStream] using ih

/-- Prefixes of the same list taken at strictly increasing in-bounds cut
points form a strict-prefix chain. -/
theorem chain_strict_prefix_takes (l : List Char) :
    ∀ cuts : List Nat, strictlyIncreasing cuts = true →
      (∀ n ∈ cuts, n ≤ l.length) →
      List.Chain' (fun a b => a <+: b ∧ a ≠ b)
        (cuts.map (fun n => l.take n)) := by
  intro cuts
  induction cuts with
  | nil => intro _ _; simp
  | cons a rest ih =>
    intro hinc hle
    cases rest with
    | nil => simp
    | cons b bs =>
      have hab : a < b ∧ strictlyIncreasing (b :: bs) = true := by
        simpa [strictlyIncreasing] using hinc
      have hlb : b ≤ l.length :=
        hle b (List.mem_cons_of_mem a (List.mem_cons_self b bs))
      have hla : a ≤ l.length := le_trans (le_of_lt hab.1) hlb
      rw [List.map_cons, List.map_cons, List.chain'_cons]
      refine ⟨⟨List.take_prefix_take_left l (le_of_lt hab.1), ?_⟩, ?_⟩
      · intro heq
        have hlen := congrArg List.length heq
        rw [List.length_take, List.length_take, Nat.min_eq_left hla,
          Nat.min_eq_left hlb] at hlen
        exact absurd hlen (Nat.ne_of_lt hab.1)
      · exact ih hab.2 (fun n hn => hle n (List.mem_cons_of_mem a hn))

/-- C2: every trace of the modelled streaming delivery has non-null
snapshots that form a strict-prefix chain (hence non-decreasing — in fact
strictly increasing — lengths); on success the trace ends with exactly one
null-content end-of-stream invocation and nothing follows it; when a
nonzero-status failure preempts the stream the failure invocation is
terminal, nothing follows it, and no end-of-stream invocation occurs. -/
theorem streamDelivery_protocol (finalText : List Char) (cuts : List Nat)
    (failureStatus : Option Int)
    (hinc : strictlyIncreasing cuts = true)
    (hbound : ∀ n ∈ cuts, n ≤ finalText.length)
    (hfail : ∀ e, failureStatus = some e → e ≠ 0) :
    List.Chain' (fun a b => a <+: b ∧ a ≠ b)
      (traceSnapshots (streamDeliveryTrace finalText cuts failureStatus)) ∧
    List.Chain' (fun a b : List Char => a.length ≤ b.length)
      (traceSnapshots (streamDeliveryTrace finalText cuts failureStatus)) ∧
    (match failureStatus with
     | none =>
        countEndOfStream (streamDeliveryTrace finalText cuts none) = 1 ∧
        (streamDeliveryTrace finalText cuts none).getLast?
          = some StreamEvent.endOfStream
     | some e =>
        e ≠ 0 ∧
        countEndOfStream (streamDeliveryTrace finalText cuts (some e)) = 0 ∧
        (streamDeliveryTrace finalText cuts (some e)).getLast?
          = some (StreamEvent.failure e)) := by
  have hchain : List.Chain' (fun a b => a <+: b ∧ a ≠ b)
      (traceSnapshots (streamDeliveryTrace finalText cuts failureStatus)) := by
    rw [traceSnapshots_streamDeliveryTrace]
    exact chain_strict_prefix_takes finalText cuts hinc hbound
  refine ⟨hchain, ?_, ?_⟩
  · exact hchain.imp (fun a b hab => hab.1.length_le)
  · cases failureStatus with
    | none =>
      refine ⟨countEndOfStream_streamDeliveryTrace finalText none cuts, ?_⟩
      rw [streamDeliveryTrace]
      exact List.getLast?_concat _
    | some e =>
      refine ⟨hfail e rfl,
        countEndOfStream_streamDeliveryTrace finalText (some e) cuts, ?_⟩
      rw [streamDeliveryTrace]
      exact List.getLast?_concat _

/-- Witness for `streamDelivery_protocol`: the response `"Hello"` streamed
with snapshots at cuts 2 and 5 ends with exactly one end-of-stream
invocation, which is the last invocation of the trace. -/
theorem streamDelivery_protocol_spot :
    countEndOfStream (streamDeliveryTrace (("Hello").data) [2, 5] none) = 1 ∧
    (streamDeliveryTrace (("Hello").data) [2, 5] none).getLast?
      = some StreamEvent.endOfStream := by
  exact (streamDelivery_protocol (("Hello").data) [2, 5] none (by decide)
    (by decide) (fun e h => nomatch h)).2.2

/-- Modelled from the spec: the callback delivery of
`FMLanguageModelSessionRespond` is declared in `FoundationModels.h` but not
implemented under `src/`.  Per the spec, a single-shot request completes
with exactly one callback invocation: status 0 with the full response text
on success, or a nonzero status with a null payload on failure. -/
def respondDeliveries (outcome : Except Int (List Char)) :
    List (Int × Option (List Char)) :=
  match outcome with
  | Except.ok payload => [(0, some payload)]
  | Except.error status => [(status, none)]

/-- C3: for a single-shot request whose failure status is nonzero, the
callback fires exactly once, and the invocation carries either status 0
with a non-null payload or a nonzero status with a null payload — never
status 0 with a null payload. -/
theorem respond_callback_exactly_once (outcome : Except Int (List Char))
    (hfail : ∀ e, outcome = Except.error e → e ≠ 0) :
    (respondDeliveries outcome).length = 1 ∧
    ∀ d ∈ respondDeliveries outcome,
      (d.1 = 0 ∧ d.2 ≠ none) ∨ (d.1 ≠ 0 ∧ d.2 = none) := by
  cases outcome with
  | ok payload =>
    refine ⟨rfl, ?_⟩
    intro d hd
    simp [respondDeliveries] at hd
    subst hd
    exact Or.inl ⟨rfl, by simp⟩
  | error status =>
    refine ⟨rfl, ?_⟩
    intro d hd
    simp [respondDeliveries] at hd
    subst hd
    exact Or.inr ⟨hfail status rfl, rfl⟩

/-- Witness for `respond_callback_exactly_once`: a successful single-shot
request delivers one invocation, and that invocation has status 0 with a
non-null payload. -/
theorem respond_callback_exactly_once_spot :
    (respondDeliveries (Except.ok (("Hi").data))).length = 1 ∧
    ((((0 : Int), (some (("Hi").data) : Option (List Char))).1 = 0 ∧
        ((0 : Int), (some (("Hi").data) : Option (List Char))).2 ≠ none) ∨
      (((0 : Int), (some (("Hi").data) : Option (List Char))).1 ≠ 0 ∧
        ((0 : Int), (some (("Hi").data) : Option (List Char))).2 = none)) := by
  have h := respond_callback_exactly_once (Except.ok (("Hi").data))
    (fun e he => nomatch he)
  exact ⟨h.1, h.2 ((0 : Int), some (("Hi").data)) (by simp [respondDeliveries])⟩

/-- The lifecycle of a reference-counted boundary object: alive with an
ownership count, or already torn down. -/
inductive RefLifecycle where
  | alive (count : Nat)
  | destroyed
deriving DecidableEq

/-- Modelled from the spec: `FMRetain` is declared in `FoundationModels.h`
but not implemented under `src/`.  Per the spec, retain increments the
shared ownership count. -/
def FMRetain : RefLifecycle → RefLifecycle
  | RefLifecycle.alive c => RefLifecycle.alive (c + 1)
  | RefLifecycle.destroyed => RefLifecycle.destroyed

/-- Modelled from the spec: `FMRelease` is declared in `FoundationModels.h`
but not implemented under `src/`.  Per the spec, release decrements the
shared ownership count and, at zero, triggers engine-side teardown; a
release of an already-destroyed reference must not tear the object down a
second time.  Returns the new lifecycle state and whether this call
triggered teardown. -/
def FMRelease : RefLifecycle → RefLifecycle × Bool
  | RefLifecycle.alive 0 => (RefLifecycle.destroyed, true)
  | RefLifecycle.alive 1 => (RefLifecycle.destroyed, true)
  | RefLifecycle.alive (c + 2) => (RefLifecycle.alive (c + 1), false)
  | RefLifecycle.destroyed => (RefLifecycle.destroyed, false)

/-- A freshly acquired reference: one owner. -/
def freshReference : RefLifecycle := RefLifecycle.alive 1

/-- Applies `n` successive calls of `FMRetain`. -/
def retainN : Nat → RefLifecycle → RefLifecycle
  | 0, r => r
  | n + 1, r => FMRetain (retainN n r)

/-- Applies `k` successive calls of `FMRelease`, returning the final lifecycle
state and how many of the calls triggered teardown. -/
def releaseRun (r : RefLifecycle) : Nat → RefLifecycle × Nat
  | 0 => (r, 0)
  | k + 1 =>
    ((FMRelease (releaseRun r k).1).1,
      (releaseRun r k).2 + (if (FMRelease (releaseRun r k).1).2 then 1 else 0))

/-- C5: after `N` retains of a fresh reference, the object stays alive —
with no teardown — through the first `N` releases, the `(N+1)`-th release
tears it down exactly once, and the `(N+2)`-th release does not tear it
down again (the teardown count stays 1: no double-free). -/
theorem retain_release_discipline (N : Nat) :
    (∀ j, j ≤ N →
      releaseRun (retainN N freshReference) j
        = (RefLifecycle.alive (N + 1 - j), 0)) ∧
    releaseRun (retainN N freshReference) (N + 1) = (RefLifecycle.destroyed, 1) ∧
    releaseRun (retainN N freshReference) (N + 2) = (RefLifecycle.destroyed, 1) := by
  have hret : retainN N freshReference = RefLifecycle.alive (N + 1) := by
    induction N with
    | zero => rfl
    | succ n ih => simp [retainN, ih, FMRetain]
  have h1 : ∀ j, j ≤ N →
      releaseRun (retainN N freshReference) j
        = (RefLifecycle.alive (N + 1 - j), 0) := by
    intro j
    induction j with
    | zero =>
      intro _
      simp [releaseRun, hret]
    | succ i ih =>
      intro hij
      have hi : i ≤ N := Nat.le_of_succ_le hij
      have heq : N + 1 - i = (N - 1 - i) + 2 := by omega
      have hstep : FMRelease (RefLifecycle.alive (N + 1 - i))
          = (RefLifecycle.alive ((N - 1 - i) + 1), false) := by
        rw [heq]
        rfl
      have hres : (N - 1 - i) + 1 = N + 1 - (i + 1) := by omega
      simp [releaseRun, ih hi, hstep, hres]
  have h2 : releaseRun (retainN N freshReference) (N + 1)
      = (RefLifecycle.destroyed, 1) := by
    have hN : releaseRun (retainN N freshReference) N
        = (RefLifecycle.alive 1, 0) := by
      have := h1 N le_rfl
      simpa using this
    simp [releaseRun, hN, FMRelease]
  refine ⟨h1, h2, ?_⟩
  have hNN : (N : Nat) + 2 = (N + 1) + 1 := by omega
  rw [hNN, releaseRun, h2]
  simp [FMRelease]

/-- Witness for `retain_release_discipline` at `N = 1`: after one retain,
one release keeps the object alive with no teardown, and three releases
yield exactly one teardown. -/
theorem retain_release_discipline_spot :
    releaseRun (retainN 1 freshReference) 1 = (RefLifecycle.alive 1, 0) ∧
    releaseRun (retainN 1 freshReference) 3 = (RefLifecycle.destroyed, 1) := by
  exact ⟨(retain_release_discipline 1).1 1 le_rfl, (retain_release_discipline 1).2.2⟩

/-- The phase of an asynchronous task. -/
inductive TaskPhase where
  | running
  | completed
  | cancelled
deriving DecidableEq

/-- A task with its phase and the number of terminal callback invocations
made for it. -/
structure TaskState where
  phase : TaskPhase
  terminalCallbacks : Nat
deriving DecidableEq

/-- Modelled from the spec: `FMTaskCancel` is declared in
`FoundationModels.h` but not implemented under `src/`.  Per the spec,
cancelling a running task is terminal (it resolves the race so that at most
one terminal callback happens) and cancelling an already-completed or
already-cancelled task is a no-op, not an error. -/
def FMTaskCancel (t : TaskState) : TaskState :=
  match t.phase with
  | TaskPhase.running =>
      { phase := TaskPhase.cancelled
        terminalCallbacks := t.terminalCallbacks + 1 }
  | TaskPhase.completed => t
  | TaskPhase.cancelled => t

/-- Modelled from the spec: normal completion of a running task fires its
single terminal callback; a task that is already terminal cannot complete
again. -/
def taskComplete (t : TaskState) : TaskState :=
  match t.phase with
  | TaskPhase.running =>
      { phase := TaskPhase.completed
        terminalCallbacks := t.terminalCallbacks + 1 }
  | TaskPhase.completed => t
  | TaskPhase.cancelled => t

/-- A freshly issued task: running, no terminal callback yet. -/
def freshTask : TaskState := { phase := TaskPhase.running, terminalCallbacks := 0 }

/-- Run a sequence of operations on a task (`true` = `FMTaskCancel`,
`false` = completion). -/
def runTaskOps : List Bool → TaskState → TaskState
  | [], t => t
  | op :: rest, t => runTaskOps rest (if op then FMTaskCancel t else taskComplete t)

/-- The task invariant: a running task has fired no terminal callback, and
no task ever fires more than one. -/
def taskInvariant (t : TaskState) : Prop :=
  (t.phase = TaskPhase.running → t.terminalCallbacks = 0) ∧ t.terminalCallbacks ≤ 1

/-- One cancel or complete step preserves the task invariant. -/
theorem taskStep_invariant (t : TaskState) (op : Bool) (h : taskInvariant t) :
    taskInvariant (if op then FMTaskCancel t else taskComplete t) := by
  cases hp : t.phase with
  | running =>
    have h0 : t.terminalCallbacks = 0 := h.1 hp
    cases op <;> simp [taskInvariant, FMTaskCancel, taskComplete, hp, h0]
  | completed =>
    cases op <;> simpa [FMTaskCancel, taskComplete, hp] using h
  | cancelled =>
    cases op <;> simpa [FMTaskCancel, taskComplete, hp] using h

/-- The task invariant is preserved by any sequence of operations. -/
theorem runTaskOps_invariant (ops : List Bool) :
    ∀ t : TaskState, taskInvariant t → taskInvariant (runTaskOps ops t) := by
  induction ops with
  | nil => intro t h; exact h
  | cons op rest ih =>
    intro t h
    exact ih (if op then FMTaskCancel t else taskComplete t) (taskStep_invariant t op h)

/-- C6: `FMTaskCancel` is idempotent — cancelling twice equals cancelling
once — cancelling an already-completed or already-cancelled task is a
no-op, and over any sequence of cancel/complete operations on a fresh task
at most one terminal callback invocation occurs. -/
theorem task_cancel_idempotent :
    (∀ t : TaskState, FMTaskCancel (FMTaskCancel t) = FMTaskCancel t) ∧
    (∀ t : TaskState, t.phase ≠ TaskPhase.running → FMTaskCancel t = t) ∧
    (∀ ops : List Bool, (runTaskOps ops freshTask).terminalCallbacks ≤ 1) := by
  refine ⟨?_, ?_, ?_⟩
  · intro t
    cases hp : t.phase <;> simp [FMTaskCancel, hp]
  · intro t hp
    cases hq : t.phase with
    | running => exact absurd hq hp
    | completed => simp [FMTaskCancel, hq]
    | cancelled => simp [FMTaskCancel, hq]
  · intro ops
    exact (runTaskOps_invariant ops freshTask ⟨fun _ => rfl, by decide⟩).2

/-- Witness for `task_cancel_idempotent`: double cancel of a fresh task
equals a single cancel, cancelling a completed task is a no-op, and two
cancels fire at most one terminal callback. -/
theorem task_cancel_idempotent_spot :
    FMTaskCancel (FMTaskCancel freshTask) = FMTaskCancel freshTask ∧
    FMTaskCancel { phase := TaskPhase.completed, terminalCallbacks := 1 }
      = { phase := TaskPhase.completed, terminalCallbacks := 1 } ∧
    (runTaskOps [true, true] freshTask).terminalCallbacks ≤ 1 := by
  exact ⟨task_cancel_idempotent.1 freshTask,
    task_cancel_idempotent.2.1 { phase := TaskPhase.completed, terminalCallbacks := 1 }
      (by decide),
    task_cancel_idempotent.2.2 [true, true]⟩

/-- The availability-reason enumeration of `FoundationModels.h`
(`FMSystemLanguageModelUnavailableReason`). -/
inductive FMSystemLanguageModelUnavailableReason where
  | appleIntelligenceNotEnabled
  | deviceNotEligible
  | modelNotReady
  | unknown
deriving DecidableEq

/-- The numeric enum values assigned in `FoundationModels.h`:
`AppleIntelligenceNotEnabled = 0`, `DeviceNotEligible = 1`,
`ModelNotReady = 2`, `Unknown = 0xFF`. -/
def unavailableReasonCode : FMSystemLanguageModelUnavailableReason → Nat
  | FMSystemLanguageModelUnavailableReason.appleIntelligenceNotEnabled => 0
  | FMSystemLanguageModelUnavailableReason.deviceNotEligible => 1
  | FMSystemLanguageModelUnavailableReason.modelNotReady => 2
  | FMSystemLanguageModelUnavailableReason.unknown => 0xFF

/-- The engine-side availability state a model reference refers to:
available, or unavailable for one of the enumerated reasons. -/
structure SystemLanguageModelState where
  unavailability : Option FMSystemLanguageModelUnavailableReason
deriving DecidableEq

/-- Modelled from the spec: `FMSystemLanguageModelIsAvailable` is declared
in `FoundationModels.h` but not implemented under `src/`.  Per the spec the
query is synchronous and side-effect-free and, when the model is
unavailable and the caller passed a non-null out-parameter, populates that
out-parameter with the reason code.  The result is the (unchanged) model
state, the availability flag, and the value written to the out-parameter,
if any. -/
def FMSystemLanguageModelIsAvailable (model : SystemLanguageModelState)
    (outParamProvided : Bool) :
    SystemLanguageModelState × Bool × Option Nat :=
  match model.unavailability with
  | none => (model, true, none)
  | some r =>
      (model, false,
        if outParamProvided then some (unavailableReasonCode r) else none)

/-- C8: the availability query leaves the model state unchanged
(side-effect-free), reports availability exactly when no unavailability
reason exists, and whenever it populates the out-parameter the value
written is one of the four enumerated reason codes 0, 1, 2, 0xFF. -/
theorem is_available_reports_closed_reasons (model : SystemLanguageModelState)
    (outParamProvided : Bool) :
    (FMSystemLanguageModelIsAvailable model outParamProvided).1 = model ∧
    ((FMSystemLanguageModelIsAvailable model outParamProvided).2.1 = true ↔
      model.unavailability = none) ∧
    (∀ c, (FMSystemLanguageModelIsAvailable model outParamProvided).2.2 = some c →
      c = 0 ∨ c = 1 ∨ c = 2 ∨ c = 0xFF) := by
  cases hm : model.unavailability with
  | none =>
    refine ⟨by simp [FMSystemLanguageModelIsAvailable, hm], ?_, ?_⟩
    · simp [FMSystemLanguageModelIsAvailable, hm]
    · intro c hc
      simp [FMSystemLanguageModelIsAvailable, hm] at hc
  | some r =>
    refine ⟨by simp [FMSystemLanguageModelIsAvailable, hm], ?_, ?_⟩
    · simp [FMSystemLanguageModelIsAvailable, hm]
    · intro c hc
      cases hp : outParamProvided with
      | false =>
        rw [hp] at hc
        simp [FMSystemLanguageModelIsAvailable, hm] at hc
      | true =>
        rw [hp] at hc
        simp [FMSystemLanguageModelIsAvailable, hm] at hc
        subst hc
        cases r <;> simp [unavailableReasonCode]

/-- Witness for `is_available_reports_closed_reasons`: querying a model
that is unavailable because it is not ready leaves the state unchanged and
writes the code 2, which is in the enumerated set. -/
theorem is_available_reports_closed_reasons_spot :
    (FMSystemLanguageModelIsAvailable
        { unavailability := some FMSystemLanguageModelUnavailableReason.modelNotReady }
        true).1
      = { unavailability := some FMSystemLanguageModelUnavailableReason.modelNotReady } ∧
    ((2 : Nat) = 0 ∨ (2 : Nat) = 1 ∨ (2 : Nat) = 2 ∨ (2 : Nat) = 0xFF) := by
  have h := is_available_reports_closed_reasons
    { unavailability := some FMSystemLanguageModelUnavailableReason.modelNotReady }
    true
  exact ⟨h.1, h.2.2 2 rfl⟩
